import Mathlib

/-!
Shallow embedding of `remote.py`: the MSP-style frame codec, the key/GPIO
command tables, the one-shot initialization burst, and the polling control
loop of `main`, together with theorems about the frames the program emits.

Bytes are modelled as natural numbers; emitted UDP datagrams are lists of
bytes; an emission at the frame level is a `Frame` (direction byte,
command id, payload bytes).  The control loop is modelled as a step
function on an explicit state, consuming one `Tick` (one iteration of the
`while True` loop: a GPIO sample vector plus the line read this tick) and
returning the new state, the frames sent during the tick, and the number
of times `send_initial_setup` ran during the tick.
-/

namespace Remote

/-- One emitted protocol message at the frame level: the direction byte
(62 is the byte of the greater-than tag, 60 of the less-than tag), the
command id, and the payload bytes. -/
structure Frame where
  direction : Nat
  cmd : Nat
  payload : List Nat
deriving Repr, DecidableEq

/-- Byte value of the greater-than direction tag used in `remote.py`. -/
def dirOut : Nat := 62

/-- Byte value of the less-than direction tag used in `remote.py`. -/
def dirIn : Nat := 60

/-- The checksum loop of `send_msp_message` (lines 71-73):
`checksum = size ^ cmd`, then `checksum ^= byte` for each payload byte. -/
def mspChecksum (size cmd : Nat) (payload : List Nat) : Nat :=
  payload.foldl (fun a b => a ^^^ b) (size ^^^ cmd)

/-- `send_msp_message` (lines 65-78): the bytes of the datagram sent.
The header is the two bytes of the dollar sign (36) and the letter M (77)
followed by the direction byte; then the size byte, the command byte, the
payload, and the checksum byte. -/
def send_msp_message (direction cmd : Nat) (payload : List Nat) : List Nat :=
  [36, 77, direction] ++ [payload.length] ++ [cmd] ++ payload ++
    [mspChecksum payload.length cmd payload]

/-- Encoding of a `Frame` as the datagram `send_msp_message` would send. -/
def Frame.encode (f : Frame) : List Nat :=
  send_msp_message f.direction f.cmd f.payload

/-- The spec's checksum, written as the spec words it: size XOR command id
XOR the XOR of all payload bytes in order (0 when the payload is empty). -/
def specChecksum (size cmd : Nat) (payload : List Nat) : Nat :=
  size ^^^ cmd ^^^ payload.foldr (fun a b => a ^^^ b) 0

/-- `key_mapping` (lines 112-120): symbol to 4-value control vector. -/
def key_mapping (k : String) : Option (List Nat) :=
  if k = "w" then some [1500, 2000, 1500, 1500]
  else if k = "a" then some [2000, 1500, 1500, 1500]
  else if k = "s" then some [1500, 1000, 1500, 1500]
  else if k = "d" then some [2000, 1500, 1500, 1500]
  else if k = "m" then some [2000, 1000, 1000, 1000]
  else if k = "x" then some [1500, 1500, 1000, 1500]
  else if k = "0" then some [1500, 1500, 1500, 1500]
  else none

/-- `gpio_mapping` (lines 123-130): pin number to simulated key. -/
def gpio_mapping (pin : Nat) : Option String :=
  if pin = 16 then some "w"
  else if pin = 13 then some "a"
  else if pin = 18 then some "s"
  else if pin = 11 then some "d"
  else if pin = 32 then some "m"
  else if pin = 38 then some "x"
  else none

/-- `pin_numbers = list(gpio_mapping.keys())` (line 141), in dict insertion
order. -/
def pin_numbers : List Nat := [16, 13, 18, 11, 32, 38]

/-- `struct.pack` of one unsigned 16-bit value, little endian. -/
def packU16LE (v : Nat) : List Nat := [v % 256, v / 256 % 256]

/-- `struct.pack(f"<{n}H", *vs)`: concatenated little-endian 16-bit
encodings of the values. -/
def packVals (vs : List Nat) : List Nat := vs.flatMap packU16LE

/-- Reading a byte list back as little-endian unsigned 16-bit values. -/
def unpackU16LE : List Nat → List Nat
  | a :: b :: rest => (a + 256 * b) :: unpackU16LE rest
  | _ => []

/-- The slice assignment `values[:4] = repl` on a 16-slot list. -/
def setFirst4 (values repl : List Nat) : List Nat := repl ++ values.drop 4

/-- The slice assignment `values[4:] = repl` on a 16-slot list. -/
def setFrom4 (values repl : List Nat) : List Nat := values.take 4 ++ repl

/-- The all-neutral 16-channel vector (`[1500] * 16`, line 133). -/
def neutralValues : List Nat := List.replicate 16 1500

/-- `send_initial_setup` (lines 87-103) at the frame level: 100 rounds of
command 182 with payload 2 then command 182 with payload 4, then one
command 101 with payload 0. -/
def send_initial_setup : List Frame :=
  ((List.range 100).flatMap fun _ =>
    [⟨dirOut, 182, [2]⟩, ⟨dirOut, 182, [4]⟩]) ++ [⟨dirOut, 101, [0]⟩]

/-- The initialization burst as the spec words it: 100 repetitions of the
pair of marker frames, followed by the one-shot init frame. -/
def specInitBurst : List Frame :=
  (List.replicate 100 [Frame.mk dirOut 182 [2], Frame.mk dirOut 182 [4]]).flatten ++
    [Frame.mk dirOut 101 [0]]

/-- The five-frame command block (lines 173-189, identically lines
209-223), given the values list as updated for the event: frames
182 payload 0, 182 payload 2, 105 with the packed values, then the reset
of the values to neutral (lines 184-186 / 218-219), 105 with the packed
reset values, and 182 payload 4.  Returns the frames and the values after
the reset. -/
def commandFrames (values : List Nat) : List Frame × List Nat :=
  let f1 : Frame := ⟨dirOut, 182, [0]⟩
  let f2 : Frame := ⟨dirOut, 182, [2]⟩
  let f3 : Frame := ⟨dirIn, 105, packVals values⟩
  let values2 := setFrom4 (setFirst4 values [1500, 1500, 1500, 1500])
    (List.replicate 12 1500)
  let f4 : Frame := ⟨dirIn, 105, packVals values2⟩
  let f5 : Frame := ⟨dirOut, 182, [4]⟩
  ([f1, f2, f3, f4, f5], values2)

/-- The spec's five-frame command burst for a looked-up 4-value vector
`m`: markers 0 and 2, command 105 with the vector extended by twelve
neutral channels, command 105 with the all-neutral vector, marker 4. -/
def commandBurst (m : List Nat) : List Frame :=
  [⟨dirOut, 182, [0]⟩, ⟨dirOut, 182, [2]⟩,
   ⟨dirIn, 105, packVals (m ++ List.replicate 12 1500)⟩,
   ⟨dirIn, 105, packVals neutralValues⟩,
   ⟨dirOut, 182, [4]⟩]

/-- The body of one GPIO rising-edge event (lines 158-189), given the
flags and values at that point and the simulated key's 4-value vector.
Returns the updated `first_input`, `initialized`, `values`, the frames
sent, and how many times `send_initial_setup` ran. -/
def pinEventBody (first_input initialized : Bool) (values : List Nat)
    (m : List Nat) : Bool × Bool × List Nat × List Frame × Nat :=
  let fi := if initialized then first_input else true
  let v1 := setFrom4 (setFirst4 values m) (List.replicate 12 1500)
  let initPart : List Frame × Bool × Nat :=
    if fi then (send_initial_setup, true, 1) else ([], initialized, 0)
  let cf := commandFrames v1
  (fi, initPart.2.1, cf.2, initPart.1 ++ cf.1, initPart.2.2)

/-- The two dictionary lookups of the pin path composed
(`key = gpio_mapping[pin]`, line 161, then `key_mapping[key]`,
line 165): the 4-value vector simulated by a pin. -/
def pinVector (pin : Nat) : Option (List Nat) :=
  (gpio_mapping pin).bind key_mapping

/-- The `for pin, state in gpio_states.items()` loop (lines 155-189) over
the triples (pin, current sample, previous sample), carrying `first_input`,
`initialized` and `values`.  Only a rising edge (current 1, previous 0)
enters the event body. -/
def pinLoop (first_input initialized : Bool) (values : List Nat) :
    List (Nat × Nat × Nat) → Bool × Bool × List Nat × List Frame × Nat
  | [] => (first_input, initialized, values, [], 0)
  | (pin, st, last) :: rest =>
    if st = 1 ∧ last = 0 then
      match pinVector pin with
      | some m =>
        let r := pinEventBody first_input initialized values m
        let rest2 := pinLoop r.1 r.2.1 r.2.2.1 rest
        (rest2.1, rest2.2.1, rest2.2.2.1,
         r.2.2.2.1 ++ rest2.2.2.2.1, r.2.2.2.2 + rest2.2.2.2.2)
      | none => pinLoop first_input initialized values rest
    else pinLoop first_input initialized values rest

/-- The keyboard part of one tick (lines 195-223): read the line; on the
quit symbol stop the loop with no frames; on a mapped symbol run the
one-time setup if needed, update the values and send the five command
frames; otherwise do nothing.  Returns (running, initialized, values,
frames, setup count). -/
def keyboardStep (initialized : Bool) (values : List Nat)
    (input : String) : Bool × Bool × List Nat × List Frame × Nat :=
  if input = "q" then (false, initialized, values, [], 0)
  else
    match key_mapping input with
    | some m =>
      let initPart : List Frame × Bool × Nat :=
        if initialized then ([], initialized, 0)
        else (send_initial_setup, true, 1)
      let v1 := setFrom4 (setFirst4 values m) (List.replicate 12 1500)
      let cf := commandFrames v1
      (true, initPart.2.1, cf.2, initPart.1 ++ cf.1, initPart.2.2)
    | none => (true, initialized, values, [], 0)

/-- The state carried across iterations of the `while True` loop. -/
structure LoopState where
  initialized : Bool
  values : List Nat
  lastGpio : List Nat
  running : Bool
deriving Repr, DecidableEq

/-- The state just before the first loop iteration (lines 133, 144, 148):
values all neutral, not initialized, all previous pin samples 0. -/
def initialState : LoopState :=
  { initialized := false, values := List.replicate 16 1500,
    lastGpio := List.replicate 6 0, running := true }

/-- The inputs consumed by one loop iteration: the GPIO samples read by
`read_all` (aligned with `pin_numbers`) and the line returned by
`non_blocking_input`. -/
structure Tick where
  gpio : List Nat
  input : String
deriving Repr, DecidableEq

/-- Align pins, current samples and previous samples. -/
def zip3 : List Nat → List Nat → List Nat → List (Nat × Nat × Nat)
  | p :: ps, g :: gs, l :: ls => (p, g, l) :: zip3 ps gs ls
  | _, _, _ => []

/-- One iteration of the `while True` loop (lines 150-225): process the
GPIO samples with `first_input` reset to false, update the remembered
samples, then process the keyboard input.  When the loop has already
stopped nothing happens.  Returns the new state, the frames sent this
tick, and the number of `send_initial_setup` runs this tick. -/
def stepTick (s : LoopState) (t : Tick) : LoopState × List Frame × Nat :=
  if s.running then
    let p := pinLoop false s.initialized s.values
      (zip3 pin_numbers t.gpio s.lastGpio)
    let k := keyboardStep p.2.1 p.2.2.1 t.input
    ({ initialized := k.2.1, values := k.2.2.1, lastGpio := t.gpio,
       running := k.1 },
     p.2.2.2.1 ++ k.2.2.2.1, p.2.2.2.2 + k.2.2.2.2)
  else (s, [], 0)

/-- Run the loop over a list of ticks, concatenating the frames sent and
adding the `send_initial_setup` counts. -/
def runTicks (s : LoopState) : List Tick → LoopState × List Frame × Nat
  | [] => (s, [], 0)
  | t :: ts =>
    let r1 := stepTick s t
    let r2 := runTicks r1.1 ts
    (r2.1, r1.2.1 ++ r2.2.1, r1.2.2 + r2.2.2)

/-- Whether each tick of a run sent at least one frame, tick by tick. -/
def firedPerTick (s : LoopState) : List Tick → List Bool
  | [] => []
  | t :: ts =>
    let r := stepTick s t
    (decide (r.2.1 ≠ [])) :: firedPerTick r.1 ts

/-- The GPIO resource wrapper: `pin_mappings` holds one entry per open
pin handle (lines 12-13, 41). -/
structure GPIOReader where
  pin_mappings : List Nat
deriving Repr, DecidableEq

/-- `GPIOReader.cleanup` (lines 54-57): close every chip and clear the
mapping, leaving no open handle recorded. -/
def GPIOReader.cleanup (_g : GPIOReader) : GPIOReader :=
  { pin_mappings := [] }

end Remote

namespace Remote

theorem foldl_xor_eq (l : List Nat) : ∀ a : Nat,
    l.foldl (fun x y => x ^^^ y) a =
      a ^^^ l.foldr (fun x y => x ^^^ y) 0 := by
  induction l with
  | nil => intro a; simp
  | cons b t ih =>
    intro a
    simp only [List.foldl_cons, List.foldr_cons, ih]
    rw [Nat.xor_assoc]

theorem mspChecksum_eq_spec (size cmd : Nat) (payload : List Nat) :
    mspChecksum size cmd payload = specChecksum size cmd payload := by
  unfold mspChecksum specChecksum
  rw [foldl_xor_eq, Nat.xor_assoc]

/-- C1: for every direction byte, command id in 0-255 and payload of
length 0-255, the encoded frame is the 2-byte protocol tag, the direction
byte, a size byte equal to the payload length, the command byte, the
payload, and a checksum byte equal to the XOR-fold of size, command id
and every payload byte in order; its total length is 6 plus the payload
length. -/
theorem msp_frame_format (direction cmd : Nat) (payload : List Nat)
    (hcmd : cmd ≤ 255) (hlen : payload.length ≤ 255) :
    send_msp_message direction cmd payload =
      [36, 77] ++ [direction] ++ [payload.length] ++ [cmd] ++ payload ++
        [specChecksum payload.length cmd payload] ∧
    (send_msp_message direction cmd payload).length = 6 + payload.length := by
  constructor
  · unfold send_msp_message
    rw [mspChecksum_eq_spec]
    simp
  · unfold send_msp_message
    simp
    omega

/-- Witness for C1 at direction 62, command 105, payload [1, 2, 3]. -/
theorem msp_frame_format_witness :
    send_msp_message 62 105 [1, 2, 3] =
      [36, 77] ++ [62] ++ [3] ++ [105] ++ [1, 2, 3] ++
        [specChecksum 3 105 [1, 2, 3]] ∧
    (send_msp_message 62 105 [1, 2, 3]).length = 6 + 3 :=
  msp_frame_format 62 105 [1, 2, 3] (by decide) (by decide)

end Remote

namespace Remote

/-- C10: the command table sends the symbols a and d to the identical
4-value vector [2000, 1500, 1500, 1500], and a tick reading a emits the
same frames as a tick reading d from any loop state. -/
theorem keys_a_d_identical :
    key_mapping "a" = some [2000, 1500, 1500, 1500] ∧
    key_mapping "d" = key_mapping "a" ∧
    ∀ s : LoopState,
      (stepTick s ⟨List.replicate 6 0, "a"⟩).2.1 =
        (stepTick s ⟨List.replicate 6 0, "d"⟩).2.1 :=
  ⟨rfl, rfl, fun _ => rfl⟩

/-- C6: on an initialized state, the tick reading the symbol w emits a
burst whose 3rd frame carries a 32-byte payload that decodes, as 16
little-endian unsigned 16-bit values, to [1500, 2000, 1500, 1500]
followed by twelve 1500s. -/
theorem w_third_frame_payload :
    (((stepTick { initialState with initialized := true }
        ⟨List.replicate 6 0, "w"⟩).2.1.get? 2).map fun f =>
          f.payload.length) = some 32 ∧
    (((stepTick { initialState with initialized := true }
        ⟨List.replicate 6 0, "w"⟩).2.1.get? 2).map fun f =>
          unpackU16LE f.payload) =
      some ([1500, 2000, 1500, 1500] ++ List.replicate 12 1500) :=
  ⟨rfl, rfl⟩

set_option maxRecDepth 10000 in
/-- C3: evaluation at the failing input.  From the fresh initial state, a
single tick in which pins 16 and 13 both rise (GPIO samples
[1, 1, 0, 0, 0, 0] against remembered samples all 0) runs
`send_initial_setup` twice, not once: the tick-scoped `first_input` flag
stays true after the first event initializes, so the second rising pin of
the same tick re-emits the 201-frame initialization burst.  The tick
sends 412 frames (two 201-frame bursts and two 5-frame command bursts)
and leaves the state initialized. -/
theorem init_burst_twice_on_simultaneous_edges :
    (stepTick initialState ⟨[1, 1, 0, 0, 0, 0], ""⟩).2.2 = 2 ∧
    (stepTick initialState ⟨[1, 1, 0, 0, 0, 0], ""⟩).2.1.length = 412 ∧
    (stepTick initialState ⟨[1, 1, 0, 0, 0, 0], ""⟩).1.initialized = true :=
  ⟨rfl, rfl, rfl⟩

end Remote

namespace Remote

theorem pinEventBody_frames_ne_nil (fi init : Bool) (v m : List Nat) :
    (pinEventBody fi init v m).2.2.2.1 ≠ [] := by
  unfold pinEventBody
  simp [commandFrames, List.append_eq_nil]

/-- C5: the pin-source edge detector fires for a monitored pin exactly
when the previous sample was 0 and the current sample is 1; and over the
sample sequence 0, 0, 1, 1, 0, 1 on pin 16 a run of the loop sends frames
exactly on the ticks indexed 2 and 5, never on tick 3. -/
theorem rising_edge_detector :
    (∀ (fi init : Bool) (v : List Nat) (p st last : Nat),
      p ∈ pin_numbers →
      (((pinLoop fi init v [(p, st, last)]).2.2.2.1 ≠ []) ↔
        (st = 1 ∧ last = 0))) ∧
    firedPerTick initialState
      ([[0], [0], [1], [1], [0], [1]].map fun g =>
        ⟨g ++ [0, 0, 0, 0, 0], ""⟩) =
      [false, false, true, false, false, true] := by
  constructor
  · intro fi init v p st last hp
    by_cases h : st = 1 ∧ last = 0
    · refine iff_of_true ?_ h
      fin_cases hp <;>
      · simp only [pinLoop, if_pos h, gpio_mapping, key_mapping]
        norm_num
        exact pinEventBody_frames_ne_nil _ _ _ _
    · refine iff_of_false ?_ h
      simp [pinLoop, if_neg h]
  · rfl

/-- Witness for C5 at pin 16, current sample 1, previous sample 0. -/
theorem rising_edge_detector_witness :
    (pinLoop false true neutralValues [(16, 1, 0)]).2.2.2.1 ≠ [] :=
  (rising_edge_detector.1 false true neutralValues 16 1 0
    (by decide)).mpr ⟨rfl, rfl⟩

end Remote

namespace Remote

theorem key_mapping_length (k : String) (m : List Nat)
    (h : key_mapping k = some m) : m.length = 4 := by
  unfold key_mapping at h
  split_ifs at h <;>
    first
    | exact Option.noConfusion h
    | (cases Option.some.inj h; rfl)

theorem key_mapping_ne_quit (k : String) (m : List Nat)
    (h : key_mapping k = some m) : k ≠ "q" := by
  intro hq
  subst hq
  simp [key_mapping] at h

theorem update_values (v m : List Nat) (hm : m.length = 4) :
    setFrom4 (setFirst4 v m) (List.replicate 12 1500) =
      m ++ List.replicate 12 1500 := by
  unfold setFirst4 setFrom4
  rw [List.take_append_of_le_length (by omega), List.take_of_length_le (by omega)]

theorem commandFrames_active (m : List Nat) (hm : m.length = 4) :
    commandFrames (m ++ List.replicate 12 1500) =
      (commandBurst m, neutralValues) := by
  unfold commandFrames commandBurst
  rw [update_values _ _ (by decide)]
  have h4 : ([1500, 1500, 1500, 1500] : List Nat) ++ List.replicate 12 1500 =
      neutralValues := by decide
  rw [h4]

theorem pinEventBody_post_init (v m : List Nat) (hm : m.length = 4) :
    pinEventBody false true v m =
      (false, true, neutralValues, commandBurst m, 0) := by
  unfold pinEventBody
  rw [update_values _ _ hm]
  try simp only []
  rw [commandFrames_active _ hm]
  simp

theorem pinEventBody_first (fi : Bool) (v m : List Nat) (hm : m.length = 4) :
    pinEventBody fi false v m =
      (true, true, neutralValues, send_initial_setup ++ commandBurst m, 1) := by
  unfold pinEventBody
  rw [update_values _ _ hm]
  try simp only []
  rw [commandFrames_active _ hm]
  simp

theorem keyboardStep_quit (init : Bool) (v : List Nat) :
    keyboardStep init v "q" = (false, init, v, [], 0) := rfl

theorem keyboardStep_mapped (init : Bool) (v : List Nat) (k : String)
    (m : List Nat) (hk : key_mapping k = some m) :
    keyboardStep init v k =
      (true, true, neutralValues,
       (if init then [] else send_initial_setup) ++ commandBurst m,
       if init then 0 else 1) := by
  unfold keyboardStep
  rw [if_neg (key_mapping_ne_quit k m hk), hk]
  try simp only []
  rw [update_values _ _ (key_mapping_length k m hk)]
  try simp only []
  rw [commandFrames_active _ (key_mapping_length k m hk)]
  cases init <;> rfl

theorem keyboardStep_unmapped (init : Bool) (v : List Nat) (k : String)
    (hk : key_mapping k = none) (hq : k ≠ "q") :
    keyboardStep init v k = (true, init, v, [], 0) := by
  unfold keyboardStep
  rw [if_neg hq, hk]

end Remote

namespace Remote

theorem pinLoop_no_rising (fi init : Bool) (v : List Nat)
    (l : List (Nat × Nat × Nat))
    (h : ∀ x ∈ l, ¬(x.2.1 = 1 ∧ x.2.2 = 0)) :
    pinLoop fi init v l = (fi, init, v, [], 0) := by
  induction l with
  | nil => rfl
  | cons hd tl ih =>
    obtain ⟨pin, st, last⟩ := hd
    have hhd := h (pin, st, last) (List.mem_cons_self _ _)
    simp only [pinLoop, if_neg hhd]
    exact ih fun x hx => h x (List.mem_cons_of_mem _ hx)

theorem zip3_same (ps g : List Nat) :
    ∀ x ∈ zip3 ps g g, x.2.1 = x.2.2 := by
  induction ps generalizing g with
  | nil => intro x hx; simp [zip3] at hx
  | cons p ps ih =>
    intro x hx
    cases g with
    | nil => simp [zip3] at hx
    | cons a g =>
      simp only [zip3, List.mem_cons] at hx
      rcases hx with h | h
      · subst h; rfl
      · exact ih g x h

theorem zip3_zero (ps : List Nat) (n : Nat) (ls : List Nat) :
    ∀ x ∈ zip3 ps (List.replicate n 0) ls, x.2.1 = 0 := by
  induction ps generalizing n ls with
  | nil => intro x hx; simp [zip3] at hx
  | cons p ps ih =>
    intro x hx
    cases n with
    | zero => simp [zip3, List.replicate] at hx
    | succ n =>
      cases ls with
      | nil => simp [zip3, List.replicate] at hx
      | cons a ls =>
        simp only [List.replicate, zip3, List.mem_cons] at hx
        rcases hx with h | h
        · subst h; rfl
        · exact ih n ls x h

theorem pinVector_length (p : Nat) (m : List Nat)
    (h : pinVector p = some m) : m.length = 4 := by
  unfold pinVector at h
  cases hg : gpio_mapping p with
  | none => rw [hg] at h; exact Option.noConfusion h
  | some key => rw [hg] at h; exact key_mapping_length key m h

theorem stepTick_no_rising_mapped (s : LoopState) (g : List Nat)
    (k : String) (m : List Nat)
    (hr : s.running = true) (hi : s.initialized = true)
    (hk : key_mapping k = some m)
    (hg : ∀ x ∈ zip3 pin_numbers g s.lastGpio, ¬(x.2.1 = 1 ∧ x.2.2 = 0)) :
    stepTick s ⟨g, k⟩ =
      ({ initialized := true, values := neutralValues, lastGpio := g,
         running := true }, commandBurst m, 0) := by
  unfold stepTick
  rw [hr, hi, pinLoop_no_rising false true s.values _ hg]
  try simp only []
  rw [keyboardStep_mapped true s.values k m hk]
  simp

theorem pinLoop_single_post_init (v : List Nat) (p : Nat) (m : List Nat)
    (hp : pinVector p = some m) :
    pinLoop false true v [(p, 1, 0)] =
      (false, true, neutralValues, commandBurst m, 0) := by
  have hm := pinVector_length p m hp
  simp only [pinLoop, if_pos (And.intro rfl rfl), hp]
  rw [pinEventBody_post_init v m hm]
  simp [pinLoop]

end Remote

namespace Remote

/-- The canonical post-initialization steady state: initialized, all
values neutral, all remembered pin samples 0, loop running. -/
def steadyState : LoopState :=
  { initialized := true, values := neutralValues,
    lastGpio := List.replicate 6 0, running := true }

/-- C2: from a state whose initialization already completed, an accepted
event from the line source or from the pin source emits exactly the five
frames of the command burst, in the fixed order: command 182 payload 0,
command 182 payload 2, command 105 with the looked-up 16-channel vector,
command 105 with the all-neutral vector, command 182 payload 4. -/
theorem accepted_event_emits_five_frames :
    (∀ (s : LoopState) (k : String) (m : List Nat),
      s.running = true → s.initialized = true →
      key_mapping k = some m →
      (stepTick s ⟨s.lastGpio, k⟩).2.1 = commandBurst m) ∧
    (∀ (v : List Nat) (p : Nat) (m : List Nat),
      pinVector p = some m →
      (pinLoop false true v [(p, 1, 0)]).2.2.2.1 = commandBurst m) ∧
    ∀ m : List Nat, (commandBurst m).length = 5 := by
  refine ⟨?_, ?_, fun m => rfl⟩
  · intro s k m hr hi hk
    have hg : ∀ x ∈ zip3 pin_numbers s.lastGpio s.lastGpio,
        ¬(x.2.1 = 1 ∧ x.2.2 = 0) := by
      intro x hx hc
      have h2 := zip3_same pin_numbers s.lastGpio x hx
      omega
    rw [stepTick_no_rising_mapped s s.lastGpio k m hr hi hk hg]
  · intro v p m hp
    rw [pinLoop_single_post_init v p m hp]

/-- Witness for C2: the line symbol w and pin 16 on an initialized
state. -/
theorem accepted_event_emits_five_frames_witness :
    (stepTick steadyState ⟨steadyState.lastGpio, "w"⟩).2.1 =
      commandBurst [1500, 2000, 1500, 1500] ∧
    (pinLoop false true neutralValues [(16, 1, 0)]).2.2.2.1 =
      commandBurst [1500, 2000, 1500, 1500] :=
  ⟨accepted_event_emits_five_frames.1 steadyState "w"
      [1500, 2000, 1500, 1500] rfl rfl rfl,
   accepted_event_emits_five_frames.2.1 neutralValues 16
      [1500, 2000, 1500, 1500] rfl⟩

/-- C8: from any initialized running state, n ticks each carrying the
same mapped line symbol (and no pin edges) emit n byte-identical copies
of the same five-frame burst, and the 16-slot values state is neutral
after every burst. -/
theorem repeated_events_byte_identical :
    ∀ (n : Nat) (s : LoopState) (k : String) (m : List Nat),
      s.running = true → s.initialized = true →
      key_mapping k = some m →
      (runTicks s (List.replicate n ⟨List.replicate 6 0, k⟩)).2.1 =
        (List.replicate n (commandBurst m)).flatten ∧
      (0 < n →
        (runTicks s (List.replicate n ⟨List.replicate 6 0, k⟩)).1.values =
          neutralValues) := by
  intro n
  induction n with
  | zero => intro s k m hr hi hk; exact ⟨rfl, fun h => absurd h (by omega)⟩
  | succ n ih =>
    intro s k m hr hi hk
    have hg : ∀ x ∈ zip3 pin_numbers (List.replicate 6 0) s.lastGpio,
        ¬(x.2.1 = 1 ∧ x.2.2 = 0) := by
      intro x hx hc
      have h2 := zip3_zero pin_numbers 6 s.lastGpio x hx
      omega
    have hstep := stepTick_no_rising_mapped s (List.replicate 6 0) k m
      hr hi hk hg
    have ihc := ih steadyState k m rfl rfl hk
    unfold steadyState at ihc
    simp only [List.replicate] at ihc hstep ⊢
    simp only [runTicks, hstep]
    constructor
    · rw [List.flatten_cons, ihc.1]
    · intro hn
      cases n with
      | zero => simp [runTicks]
      | succ n2 => exact ihc.2 (by omega)

/-- Witness for C8: two consecutive w ticks from the steady state. -/
theorem repeated_events_byte_identical_witness :
    (runTicks steadyState
      (List.replicate 2 ⟨List.replicate 6 0, "w"⟩)).2.1 =
      (List.replicate 2 (commandBurst [1500, 2000, 1500, 1500])).flatten ∧
    (0 < 2 →
      (runTicks steadyState
        (List.replicate 2 ⟨List.replicate 6 0, "w"⟩)).1.values =
        neutralValues) :=
  repeated_events_byte_identical 2 steadyState "w"
    [1500, 2000, 1500, 1500] rfl rfl rfl

end Remote

namespace Remote

/-- The direction discipline of every frame the program builds: marker
frames (182) and the one-shot init frame (101) carry the greater-than
byte, control-vector frames (105) carry the less-than byte. -/
def dirOk (f : Frame) : Prop :=
  (f.cmd = 182 ∧ f.direction = dirOut) ∨
  (f.cmd = 101 ∧ f.direction = dirOut) ∨
  (f.cmd = 105 ∧ f.direction = dirIn)

instance (f : Frame) : Decidable (dirOk f) := by
  unfold dirOk
  exact inferInstance

set_option maxRecDepth 10000 in
theorem dirOk_initial : ∀ f ∈ send_initial_setup, dirOk f := by decide

theorem dirOk_commandFrames (v : List Nat) :
    ∀ f ∈ (commandFrames v).1, dirOk f := by
  intro f hf
  simp only [commandFrames, List.mem_cons, List.not_mem_nil, or_false] at hf
  rcases hf with h | h | h | h | h <;> subst h <;> simp [dirOk]

theorem dirOk_pinEventBody (fi init : Bool) (v m : List Nat) :
    ∀ f ∈ (pinEventBody fi init v m).2.2.2.1, dirOk f := by
  intro f hf
  cases init <;> cases fi <;>
    (simp only [pinEventBody, List.mem_append] at hf;
     rcases hf with h | h)
  all_goals
    first
    | exact dirOk_initial f h
    | exact dirOk_commandFrames _ f h
    | simp at h

theorem dirOk_pinLoop (fi init : Bool) (v : List Nat)
    (l : List (Nat × Nat × Nat)) :
    ∀ f ∈ (pinLoop fi init v l).2.2.2.1, dirOk f := by
  induction l generalizing fi init v with
  | nil => intro f hf; simp [pinLoop] at hf
  | cons hd tl ih =>
    intro f hf
    obtain ⟨pin, st, last⟩ := hd
    by_cases hr : st = 1 ∧ last = 0
    · simp only [pinLoop, if_pos hr] at hf
      cases hp : pinVector pin with
      | none => rw [hp] at hf; exact ih fi init v f hf
      | some m =>
        rw [hp] at hf
        simp only [List.mem_append] at hf
        rcases hf with h | h
        · exact dirOk_pinEventBody _ _ _ _ f h
        · exact ih _ _ _ f h
    · simp only [pinLoop, if_neg hr] at hf
      exact ih fi init v f hf

theorem dirOk_keyboardStep (init : Bool) (v : List Nat) (k : String) :
    ∀ f ∈ (keyboardStep init v k).2.2.2.1, dirOk f := by
  intro f hf
  by_cases hq : k = "q"
  · subst hq; simp [keyboardStep] at hf
  · cases hk : key_mapping k with
    | none => rw [keyboardStep_unmapped init v k hk hq] at hf; simp at hf
    | some m =>
      rw [keyboardStep_mapped init v k m hk] at hf
      simp only [List.mem_append] at hf
      rcases hf with h | h
      · cases init with
        | true => simp at h
        | false => exact dirOk_initial f (by simpa using h)
      · have hm := key_mapping_length k m hk
        have hcb : commandBurst m = (commandFrames
            (m ++ List.replicate 12 1500)).1 := by
          rw [commandFrames_active m hm]
        rw [hcb] at h
        exact dirOk_commandFrames _ f h

/-- C9: in every run, from any state, every emitted frame obeys the
direction discipline: command 182 and command 101 frames carry the
greater-than direction byte and command 105 frames carry the less-than
direction byte; no other command or direction occurs. -/
theorem direction_tags (s : LoopState) (ts : List Tick) :
    ∀ f ∈ (runTicks s ts).2.1,
      (f.cmd = 182 ∧ f.direction = dirOut) ∨
      (f.cmd = 101 ∧ f.direction = dirOut) ∨
      (f.cmd = 105 ∧ f.direction = dirIn) := by
  induction ts generalizing s with
  | nil => intro f hf; simp [runTicks] at hf
  | cons t ts ih =>
    intro f hf
    simp only [runTicks, List.mem_append] at hf
    rcases hf with h | h
    · by_cases hr : s.running = true
      · simp only [stepTick, if_pos hr, List.mem_append] at h
        rcases h with h2 | h2
        · exact dirOk_pinLoop _ _ _ _ f h2
        · exact dirOk_keyboardStep _ _ _ f h2
      · simp only [stepTick, if_neg hr] at h
        simp at h
    · exact ih _ f h

/-- Witness for C9: the first frame of the burst a w tick emits on the
steady state. -/
theorem direction_tags_witness :
    (Frame.mk dirOut 182 [0]).cmd = 182 ∧
      (Frame.mk dirOut 182 [0]).direction = dirOut ∨
    (Frame.mk dirOut 182 [0]).cmd = 101 ∧
      (Frame.mk dirOut 182 [0]).direction = dirOut ∨
    (Frame.mk dirOut 182 [0]).cmd = 105 ∧
      (Frame.mk dirOut 182 [0]).direction = dirIn :=
  direction_tags steadyState [⟨List.replicate 6 0, "w"⟩]
    (Frame.mk dirOut 182 [0]) (by decide)

end Remote

namespace Remote

theorem pinLoop_uninit (v : List Nat) (l : List (Nat × Nat × Nat)) :
    pinLoop false false v l = (false, false, v, [], 0) ∨
    ∃ rest, (pinLoop false false v l).2.2.2.1 = send_initial_setup ++ rest := by
  induction l with
  | nil => exact Or.inl rfl
  | cons hd tl ih =>
    obtain ⟨pin, st, last⟩ := hd
    by_cases hr : st = 1 ∧ last = 0
    · cases hp : pinVector pin with
      | none =>
        simp only [pinLoop, if_pos hr, hp]
        exact ih
      | some m =>
        refine Or.inr ?_
        have hm := pinVector_length pin m hp
        simp only [pinLoop, if_pos hr, hp, pinEventBody_first false v m hm]
        refine ⟨commandBurst m ++
          (pinLoop true true neutralValues tl).2.2.2.1, ?_⟩
        simp
    · simp only [pinLoop, if_neg hr]
      exact ih

theorem stepTick_uninit (s : LoopState) (t : Tick)
    (h : s.initialized = false) :
    ((stepTick s t).2.1 = [] ∧ (stepTick s t).1.initialized = false) ∨
    ∃ rest, (stepTick s t).2.1 = send_initial_setup ++ rest := by
  by_cases hr : s.running = true
  · rcases pinLoop_uninit s.values (zip3 pin_numbers t.gpio s.lastGpio)
      with hp | ⟨rest, hp⟩
    · by_cases hq : t.input = "q"
      · refine Or.inl ?_
        simp only [stepTick, if_pos hr, h, hp, hq, keyboardStep_quit]
        exact ⟨by simp, by simp⟩
      · cases hk : key_mapping t.input with
        | none =>
          refine Or.inl ?_
          simp only [stepTick, if_pos hr, h, hp,
            keyboardStep_unmapped false s.values t.input hk hq]
          exact ⟨by simp, by simp⟩
        | some m =>
          refine Or.inr ⟨commandBurst m, ?_⟩
          simp only [stepTick, if_pos hr, h, hp,
            keyboardStep_mapped false s.values t.input m hk]
          simp
    · refine Or.inr ⟨rest ++ (keyboardStep (pinLoop false false s.values
        (zip3 pin_numbers t.gpio s.lastGpio)).2.1 (pinLoop false false
        s.values (zip3 pin_numbers t.gpio s.lastGpio)).2.2.1
        t.input).2.2.2.1, ?_⟩
      simp only [stepTick, if_pos hr, h]
      rw [hp, List.append_assoc]
  · refine Or.inl ?_
    simp only [stepTick, if_neg hr]
    exact ⟨trivial, h⟩

theorem runTicks_uninit (s : LoopState) (ts : List Tick)
    (h : s.initialized = false) :
    ((runTicks s ts).2.1 = [] ∧ (runTicks s ts).1.initialized = false) ∨
    ∃ rest, (runTicks s ts).2.1 = send_initial_setup ++ rest := by
  induction ts generalizing s with
  | nil => exact Or.inl ⟨rfl, h⟩
  | cons t ts ih =>
    rcases stepTick_uninit s t h with ⟨hf, hi⟩ | ⟨rest, hf⟩
    · rcases ih (stepTick s t).1 hi with ⟨hf2, hi2⟩ | ⟨rest2, hf2⟩
      · refine Or.inl ?_
        constructor
        · simp only [runTicks]
          rw [hf, hf2]
          rfl
        · simpa only [runTicks] using hi2
      · refine Or.inr ⟨rest2, ?_⟩
        simp only [runTicks]
        rw [hf, hf2]
        rfl
    · refine Or.inr ⟨rest ++ (runTicks (stepTick s t).1 ts).2.1, ?_⟩
      simp only [runTicks]
      rw [hf, List.append_assoc]

/-- C4: the initialization burst is exactly 100 repetitions of the pair
of command 182 frames with payloads 2 and 4, followed by one command 101
frame with payload 0 (201 frames); and in any run from the fresh initial
state, any trace containing a control-vector (command 105) frame starts
with the full burst, in order. -/
theorem init_burst_structure_and_first :
    send_initial_setup = specInitBurst ∧
    send_initial_setup.length = 201 ∧
    ∀ ts : List Tick,
      (∃ f ∈ (runTicks initialState ts).2.1, f.cmd = 105) →
      ∃ rest, (runTicks initialState ts).2.1 = send_initial_setup ++ rest := by
  refine ⟨rfl, rfl, ?_⟩
  intro ts hex
  rcases runTicks_uninit initialState ts rfl with ⟨hf, _⟩ | hr
  · rw [hf] at hex
    simp at hex
  · exact hr

set_option maxRecDepth 10000 in
/-- Witness for C4: a single w tick from the fresh state emits a
command 105 frame, and its trace starts with the initialization burst. -/
theorem init_burst_structure_and_first_witness :
    ∃ rest, (runTicks initialState [⟨List.replicate 6 0, "w"⟩]).2.1 =
      send_initial_setup ++ rest :=
  init_burst_structure_and_first.2.2 [⟨List.replicate 6 0, "w"⟩]
    (by decide)

/-- C7: a tick whose line input is the quit symbol stops the loop and
emits only the frames of its GPIO phase (none from the keyboard phase); a
stopped loop emits no further frames and changes nothing; and cleaning up
the GPIO reader leaves no open pin handle recorded. -/
theorem quit_terminates :
    (∀ (s : LoopState) (t : Tick), s.running = true → t.input = "q" →
      (stepTick s t).1.running = false ∧
      (stepTick s t).2.1 =
        (pinLoop false s.initialized s.values
          (zip3 pin_numbers t.gpio s.lastGpio)).2.2.2.1) ∧
    (∀ (s : LoopState) (ts : List Tick), s.running = false →
      runTicks s ts = (s, [], 0)) ∧
    ∀ g : GPIOReader, (GPIOReader.cleanup g).pin_mappings = [] := by
  refine ⟨?_, ?_, fun g => rfl⟩
  · intro s t hr hq
    simp only [stepTick, if_pos hr, hq, keyboardStep_quit]
    exact ⟨trivial, by simp⟩
  · intro s ts hr
    induction ts with
    | nil => rfl
    | cons t ts ih =>
      have hs : stepTick s t = (s, [], 0) := by
        simp only [stepTick, hr]
        rfl
      simp only [runTicks, hs, ih]
      rfl

/-- Witness for C7: the quit symbol on the steady state, then a stopped
state over one further tick. -/
theorem quit_terminates_witness :
    ((stepTick steadyState ⟨List.replicate 6 0, "q"⟩).1.running = false ∧
     (stepTick steadyState ⟨List.replicate 6 0, "q"⟩).2.1 =
       (pinLoop false steadyState.initialized steadyState.values
         (zip3 pin_numbers (List.replicate 6 0)
           steadyState.lastGpio)).2.2.2.1) ∧
    runTicks { steadyState with running := false }
      [⟨List.replicate 6 0, "w"⟩] =
      ({ steadyState with running := false }, [], 0) :=
  ⟨quit_terminates.1 steadyState ⟨List.replicate 6 0, "q"⟩ rfl rfl,
   quit_terminates.2.1 { steadyState with running := false }
     [⟨List.replicate 6 0, "w"⟩] rfl⟩

end Remote
